import Mathlib

/-!
Shallow embedding of the sales-report email pipeline
(`batch_process_emails.py`: `get_unique_filename`, `extract_excel_from_eml`,
`process_sales_excel`, and the per-attachment CSV write step of
`process_eml_file`), together with theorems settling the specification
claims about it.

Modelling conventions:
* Python strings are Lean `String`s; character-level work is done on
  `String.data : List Char`.  `\d` of Python's `re` is modelled by ASCII
  digits and `\s` by the six ASCII whitespace characters, which is the
  behaviour on the ASCII titles the claims are about.
* Spreadsheet cell values are modelled by their stringified form; a sheet
  is its list of rows.
* The filesystem is modelled as a list of file names (for uniqueness
  checks) or of (name, bytes) pairs (for the staging directory).
* Library failures that Python surfaces as exceptions are modelled with
  `Except` / `Option` results.
-/

namespace BatchEmails

/-! ## Characters: Python `\d` and `\s` on ASCII text -/

/-- Python `\s` on the ASCII range: space, tab, newline, carriage return,
vertical tab, form feed. -/
def isSpaceChar (c : Char) : Bool :=
  c == ' ' || c == '\t' || c == '\n' || c == '\r' || c == '\x0b' || c == '\x0c'

theorem space_not_digit {c : Char} (h : isSpaceChar c = true) : c.isDigit = false := by
  unfold isSpaceChar at h
  simp only [Bool.or_eq_true, beq_iff_eq] at h
  rcases h with ((((h | h) | h) | h) | h) | h <;> subst h <;> rfl

theorem digit_not_space {c : Char} (h : c.isDigit = true) : isSpaceChar c = false := by
  cases hs : isSpaceChar c with
  | false => rfl
  | true => rw [space_not_digit hs] at h; cases h

/-! ## The date-range regex
`(\d{2}/\d{2}/\d{4})\s*-\s*(\d{2}/\d{2}/\d{4})` of `process_sales_excel`,
embedded as a deterministic matcher.  Because `-` is not whitespace and
digits are not whitespace, the greedy `\s*` pieces of the pattern are
equivalent to maximal-munch whitespace skipping, and `re.search`'s
leftmost-match rule is the scan in `searchRange` below. -/

/-- The shape `\d{2}/\d{2}/\d{4}` of one captured date. -/
def dateShape (l : List Char) : Bool :=
  match l with
  | [a, b, s1, c, d, s2, e, f, g, h] =>
    a.isDigit && b.isDigit && s1 == '/' && c.isDigit && d.isDigit && s2 == '/' &&
      e.isDigit && f.isDigit && g.isDigit && h.isDigit
  | _ => false

/-- Match `\d{2}/\d{2}/\d{4}` at the head of the text; return the ten
matched characters and the rest. -/
def takeDate : List Char → Option (List Char × List Char)
  | a :: b :: s1 :: c :: d :: s2 :: e :: f :: g :: h :: rest =>
    if dateShape [a, b, s1, c, d, s2, e, f, g, h] then
      some ([a, b, s1, c, d, s2, e, f, g, h], rest)
    else none
  | _ => none

/-- Maximal-munch `\s*`: the consumed whitespace and the rest. -/
def skipSpaces : List Char → List Char × List Char
  | [] => ([], [])
  | c :: rest =>
    if isSpaceChar c then
      let p := skipSpaces rest
      (c :: p.1, p.2)
    else ([], c :: rest)

/-- Match the whole pattern anchored at the head of the text; return the two
captured groups and the text after the match. -/
def matchRangeAt (l : List Char) : Option (List Char × List Char × List Char) :=
  match takeDate l with
  | none => none
  | some (d1, r1) =>
    match (skipSpaces r1).2 with
    | '-' :: r3 =>
      match takeDate (skipSpaces r3).2 with
      | none => none
      | some (d2, r5) => some (d1, d2, r5)
    | _ => none

/-- `re.search` for the pattern: scan start positions left to right and
return the first match's two captured groups. -/
def searchRange : List Char → Option (List Char × List Char)
  | [] => none
  | c :: rest =>
    match matchRangeAt (c :: rest) with
    | some (d1, d2, _) => some (d1, d2)
    | none => searchRange rest

/-- Number of positions of the text at which the pattern matches (used to
count occurrences of the date-range pattern in a title). -/
def countMatchPositions : List Char → Nat
  | [] => 0
  | c :: rest =>
    (if (matchRangeAt (c :: rest)).isSome then 1 else 0) + countMatchPositions rest

/-! ### Soundness and completeness of the matcher -/

theorem takeDate_sound {l d r} (h : takeDate l = some (d, r)) :
    l = d ++ r ∧ dateShape d = true := by
  unfold takeDate at h
  split at h
  · split at h
    · rename_i hshape
      injection h with h
      injection h with h1 h2
      subst h1; subst h2
      exact ⟨rfl, hshape⟩
    · cases h
  · cases h

theorem takeDate_complete {d : List Char} (r : List Char) (h : dateShape d = true) :
    takeDate (d ++ r) = some (d, r) := by
  unfold dateShape at h
  split at h
  · rename_i a b s1 c dd s2 e f g hh
    simp only [List.cons_append, List.nil_append, takeDate]
    rw [if_pos]
    exact h
  · cases h

theorem skipSpaces_sound (l : List Char) :
    l = (skipSpaces l).1 ++ (skipSpaces l).2 ∧ (skipSpaces l).1.all isSpaceChar = true := by
  induction l with
  | nil => exact ⟨rfl, rfl⟩
  | cons c rest ih =>
    by_cases hc : isSpaceChar c = true
    · simp only [skipSpaces, if_pos hc]
      refine ⟨?_, ?_⟩
      · simpa using ih.1
      · simpa [List.all_cons, hc] using ih.2
    · simp only [skipSpaces, if_neg hc]
      exact ⟨rfl, rfl⟩

theorem skipSpaces_stop {w : List Char} (hw : w.all isSpaceChar = true)
    {c : Char} (hc : isSpaceChar c = false) (r : List Char) :
    skipSpaces (w ++ c :: r) = (w, c :: r) := by
  induction w with
  | nil => simp [skipSpaces, hc]
  | cons a w' ih =>
    simp only [List.all_cons, Bool.and_eq_true] at hw
    simp [skipSpaces, hw.1, ih hw.2]

theorem matchRangeAt_sound {l d1 d2 rest} (h : matchRangeAt l = some (d1, d2, rest)) :
    ∃ w1 w2, l = d1 ++ (w1 ++ '-' :: (w2 ++ (d2 ++ rest))) ∧
      dateShape d1 = true ∧ dateShape d2 = true ∧
      w1.all isSpaceChar = true ∧ w2.all isSpaceChar = true := by
  unfold matchRangeAt at h
  split at h
  · cases h
  · rename_i e1 r1 htd
    split at h
    · rename_i r3 hsk
      split at h
      · cases h
      · rename_i e2 r5 htd2
        injection h with h
        injection h with ha h
        injection h with hb hc
        subst ha; subst hb; subst hc
        obtain ⟨hl1, hs1⟩ := takeDate_sound htd
        obtain ⟨hl2, hs2⟩ := takeDate_sound htd2
        obtain ⟨hr1, hw1⟩ := skipSpaces_sound r1
        obtain ⟨hr3, hw3⟩ := skipSpaces_sound r3
        refine ⟨(skipSpaces r1).1, (skipSpaces r3).1, ?_, hs1, hs2, hw1, hw3⟩
        rw [← hl2, ← hr3, ← hsk, ← hr1]
        exact hl1
    · cases h

theorem dateShape_head_digit {d : List Char} (h : dateShape d = true) :
    ∃ a t, d = a :: t ∧ a.isDigit = true := by
  unfold dateShape at h
  split at h
  · rename_i a b s1 c dd s2 e f g hh
    simp only [Bool.and_eq_true] at h
    exact ⟨a, _, rfl, h.1.1.1.1.1.1.1.1.1⟩
  · cases h

theorem matchRangeAt_complete {d1 w1 w2 d2 : List Char} (post : List Char)
    (hs1 : dateShape d1 = true) (hs2 : dateShape d2 = true)
    (hw1 : w1.all isSpaceChar = true) (hw2 : w2.all isSpaceChar = true) :
    matchRangeAt (d1 ++ (w1 ++ '-' :: (w2 ++ (d2 ++ post)))) = some (d1, d2, post) := by
  obtain ⟨a, t, hd2, ha⟩ := dateShape_head_digit hs2
  have hdash : isSpaceChar '-' = false := rfl
  have h1 : takeDate (d1 ++ (w1 ++ '-' :: (w2 ++ (d2 ++ post)))) =
      some (d1, w1 ++ '-' :: (w2 ++ (d2 ++ post))) := takeDate_complete _ hs1
  have h2 : skipSpaces (w1 ++ '-' :: (w2 ++ (d2 ++ post))) =
      (w1, '-' :: (w2 ++ (d2 ++ post))) := skipSpaces_stop hw1 hdash _
  have h3 : skipSpaces (w2 ++ (d2 ++ post)) = (w2, d2 ++ post) := by
    rw [hd2]
    simpa using skipSpaces_stop hw2 (digit_not_space ha) (t ++ post)
  have h4 : takeDate (d2 ++ post) = some (d2, post) := takeDate_complete _ hs2
  unfold matchRangeAt
  rw [h1]
  simp only [h2, h3, h4]

theorem searchRange_sound {l s e : List Char} (h : searchRange l = some (s, e)) :
    ∃ pre w1 w2 post, l = pre ++ (s ++ (w1 ++ '-' :: (w2 ++ (e ++ post)))) ∧
      dateShape s = true ∧ dateShape e = true ∧
      w1.all isSpaceChar = true ∧ w2.all isSpaceChar = true := by
  induction l with
  | nil => cases h
  | cons c rest ih =>
    unfold searchRange at h
    split at h
    · rename_i d1 d2 r hm
      injection h with h
      injection h with ha hb
      subst ha; subst hb
      obtain ⟨w1, w2, hl, hs1, hs2, hw1, hw2⟩ := matchRangeAt_sound hm
      exact ⟨[], w1, w2, r, by simpa using hl, hs1, hs2, hw1, hw2⟩
    · rename_i hm
      obtain ⟨pre, w1, w2, post, hl, hs1, hs2, hw1, hw2⟩ := ih h
      exact ⟨c :: pre, w1, w2, post, by simp [hl], hs1, hs2, hw1, hw2⟩

theorem searchRange_complete {pre d1 w1 w2 d2 post : List Char}
    (hs1 : dateShape d1 = true) (hs2 : dateShape d2 = true)
    (hw1 : w1.all isSpaceChar = true) (hw2 : w2.all isSpaceChar = true) :
    (searchRange (pre ++ (d1 ++ (w1 ++ '-' :: (w2 ++ (d2 ++ post)))))).isSome = true := by
  induction pre with
  | nil =>
    obtain ⟨a, t, hd1, ha⟩ := dateShape_head_digit hs1
    rw [List.nil_append]
    have hm := matchRangeAt_complete post hs1 hs2 hw1 hw2
    rw [hd1] at hm ⊢
    simp only [List.cons_append] at hm ⊢
    unfold searchRange
    rw [hm]
    rfl
  | cons c pre' ih =>
    simp only [List.cons_append]
    unfold searchRange
    split
    · rfl
    · exact ih

/-! ## Dates: `datetime.strptime(_, '%d/%m/%Y')` and `strftime('%Y%m%d')`

`strptime` parses day/month/year and validates them against the real
calendar (leap years included); an out-of-range component raises
`ValueError`.  `strftime('%Y%m%d')` zero-pads day and month to two digits
and the year to four. -/

/-- Numeric value of an ASCII digit character. -/
def charVal (c : Char) : Nat := c.toNat - 48

def isLeapYear (y : Nat) : Bool :=
  (y % 4 == 0 && y % 100 != 0) || y % 400 == 0

def daysInMonth (y m : Nat) : Nat :=
  if m = 2 then (if isLeapYear y then 29 else 28)
  else if m = 4 ∨ m = 6 ∨ m = 9 ∨ m = 11 then 30
  else 31

/-- `datetime.strptime(str, '%d/%m/%Y')`, restricted to the ten-character
`dd/mm/yyyy` inputs produced by the regex capture; returns
`(day, month, year)` or `none` for the `ValueError` cases (month not in
1..12, day not a real day of that month, year 0). -/
def parseDate (str : String) : Option (Nat × Nat × Nat) :=
  match str.data with
  | [a, b, s1, c, d, s2, e, f, g, h] =>
    if a.isDigit && b.isDigit && s1 == '/' && c.isDigit && d.isDigit && s2 == '/' &&
        e.isDigit && f.isDigit && g.isDigit && h.isDigit then
      let day := 10 * charVal a + charVal b
      let mon := 10 * charVal c + charVal d
      let yr := 1000 * charVal e + 100 * charVal f + 10 * charVal g + charVal h
      if 1 ≤ yr ∧ 1 ≤ mon ∧ mon ≤ 12 ∧ 1 ≤ day ∧ day ≤ daysInMonth yr mon then
        some (day, mon, yr)
      else none
    else none
  | _ => none

/-- Decimal digit as a character. -/
def digitChar (d : Nat) : Char :=
  match d with
  | 0 => '0' | 1 => '1' | 2 => '2' | 3 => '3' | 4 => '4'
  | 5 => '5' | 6 => '6' | 7 => '7' | 8 => '8' | _ => '9'

/-- Decimal digits of `n`, most significant first; the first argument is
fuel (`n` itself is always enough). -/
def natReprAux : Nat → Nat → List Char
  | 0, _ => []
  | fuel + 1, n =>
    if n = 0 then [] else natReprAux fuel (n / 10) ++ [digitChar (n % 10)]

/-- Python `str(n)` for a natural number. -/
def natRepr (n : Nat) : String :=
  if n = 0 then "0" else String.mk (natReprAux n n)

/-- Zero-pad to two digits (`%d`, `%m`). -/
def pad2 (n : Nat) : String :=
  if n < 10 then "0" ++ natRepr n else natRepr n

/-- Zero-pad to four digits (`%Y`; years here always come from a four-digit
literal). -/
def pad4 (n : Nat) : String :=
  if n < 10 then "000" ++ natRepr n
  else if n < 100 then "00" ++ natRepr n
  else if n < 1000 then "0" ++ natRepr n
  else natRepr n

/-- `strftime('%Y%m%d')` on a parsed `(day, month, year)`. -/
def fmtYYYYMMDD (dmy : Nat × Nat × Nat) : String :=
  pad4 dmy.2.2 ++ pad2 dmy.2.1 ++ pad2 dmy.1

/-! ## The report normalizer: `process_sales_excel` -/

/-- A spreadsheet, as the stringified values of its cell grid.  The title
cell read by `ws.cell(row=1, column=1)` is the first cell of the first
row; a missing cell stringifies (via Python `str(None)`) to `"None"`. -/
structure Sheet where
  rows : List (List String)
deriving DecidableEq

/-- `str(ws.cell(row=1, column=1).value)`. -/
def titleStr (s : Sheet) : String := (s.rows.headD []).headD "None"

/-- The pandas dataframe built by `pd.read_excel(..., header=2)` and the
two `df.insert` calls: named columns plus data rows. -/
structure DataFrame where
  columns : List String
  rows : List (List String)
deriving DecidableEq

/-- Errors surfaced by `process_sales_excel`: the explicit `ValueError`
raised on a missing date range (and the `read_excel` failure when the
sheet has no header row), and the `ValueError` of `strptime`, which
carries the offending time data string. -/
inductive ProcError where
  | valueError (msg : String)
  | strptimeError (data : String)
deriving DecidableEq

/-- The message of the `ValueError` raised when the regex finds no match. -/
def noDateMsg : String :=
  "Could not find date range in the expected format dd/MM/yyyy - dd/MM/yyyy"

/-- Proposed output filename computed from the two parsed dates. -/
def mkFilename (sd ed : Nat × Nat × Nat) : String :=
  "sales_" ++ fmtYYYYMMDD sd ++ "_" ++ fmtYYYYMMDD ed ++ ".csv"

/-- `process_sales_excel` of `batch_process_emails.py` (lines 69-113):
read the title cell, regex-search it for the date range, parse both
captured dates, re-read the table with row 3 as header, prepend the two
literal period columns, and propose the output filename. -/
def process_sales_excel (sheet : Sheet) : Except ProcError (DataFrame × String) :=
  match searchRange (titleStr sheet).data with
  | none => .error (.valueError noDateMsg)
  | some (s, e) =>
    match parseDate (String.mk s) with
    | none => .error (.strptimeError (String.mk s))
    | some sd =>
      match parseDate (String.mk e) with
      | none => .error (.strptimeError (String.mk e))
      | some ed =>
        if sheet.rows.length < 3 then
          .error (.valueError "Passed header=2 but sheet has fewer than 3 rows")
        else
          .ok ({ columns := "Period_Start" :: "Period_End" :: sheet.rows.getD 2 [],
                 rows := (sheet.rows.drop 3).map
                   (fun r => String.mk s :: String.mk e :: r) },
               mkFilename sd ed)

/-! ## `get_unique_filename` (lines 12-30)

The filesystem is a list of existing file names; the path is split, as
`Path.stem` / `Path.suffix` do, into a stem and an extension.  The source
loop runs `counter = 1, 2, ...` until a free name is found; since the
filesystem is finite, `fs.length + 1` probes always suffice, which the
lemmas below prove. -/

/-- Value of a digit string (inverse of the decimal printer, for the
injectivity proof). -/
def reprVal (l : List Char) : Nat :=
  l.foldl (fun acc c => 10 * acc + (c.toNat - 48)) 0

theorem digitChar_val {d : Nat} (h : d < 10) : (digitChar d).toNat - 48 = d := by
  interval_cases d <;> rfl

theorem reprVal_append (l : List Char) (c : Char) :
    reprVal (l ++ [c]) = 10 * reprVal l + (c.toNat - 48) := by
  unfold reprVal
  rw [List.foldl_append]
  rfl

theorem natReprAux_val : ∀ fuel n, n ≤ fuel → reprVal (natReprAux fuel n) = n := by
  intro fuel
  induction fuel with
  | zero =>
    intro n hn
    have : n = 0 := by omega
    subst this; rfl
  | succ fuel ih =>
    intro n hn
    by_cases h0 : n = 0
    · subst h0; rfl
    · have hle : n / 10 ≤ fuel := by
        have : n / 10 < n := Nat.div_lt_self (Nat.pos_of_ne_zero h0) (by norm_num)
        omega
      unfold natReprAux
      rw [if_neg h0, reprVal_append, ih _ hle, digitChar_val (Nat.mod_lt n (by norm_num))]
      omega

theorem natRepr_val (n : Nat) : reprVal (natRepr n).data = n := by
  unfold natRepr
  by_cases h0 : n = 0
  · subst h0; rfl
  · rw [if_neg h0]
    exact natReprAux_val n n le_rfl

theorem natRepr_inj {a b : Nat} (h : natRepr a = natRepr b) : a = b := by
  have h2 := congrArg (fun s : String => reprVal s.data) h
  simp only at h2
  rw [natRepr_val a, natRepr_val b] at h2
  exact h2

/-- The candidate `f"{base_name}_{counter}{extension}"` of the source loop. -/
def candName (stem ext : String) (n : Nat) : String :=
  stem ++ "_" ++ natRepr n ++ ext

theorem string_ext {a b : String} (h : a.data = b.data) : a = b :=
  String.ext h

theorem append_data (a b : String) : (a ++ b).data = a.data ++ b.data := rfl

theorem candName_inj (stem ext : String) {n m : Nat}
    (h : candName stem ext n = candName stem ext m) : n = m := by
  unfold candName at h
  have hd := congrArg String.data h
  simp only [append_data] at hd
  have h1 := List.append_cancel_right hd
  have h2 := List.append_cancel_left h1
  exact natRepr_inj (string_ext h2)

/-- The `while True` loop of `get_unique_filename`, with explicit fuel. -/
def findFree (fs : List String) (stem ext : String) : Nat → Nat → Option String
  | 0, _ => none
  | fuel + 1, n =>
    if candName stem ext n ∈ fs then findFree fs stem ext fuel (n + 1)
    else some (candName stem ext n)

/-- `get_unique_filename` of `batch_process_emails.py`: return the path
itself when free, otherwise the first `stem_<n>ext` (scanning `n` upward
from 1) that is free. -/
def get_unique_filename (fs : List String) (stem ext : String) : String :=
  if stem ++ ext ∈ fs then (findFree fs stem ext (fs.length + 1) 1).getD (stem ++ ext)
  else stem ++ ext

theorem findFree_none {fs : List String} {stem ext : String} :
    ∀ fuel start, findFree fs stem ext fuel start = none →
      ∀ k, k < fuel → candName stem ext (start + k) ∈ fs := by
  intro fuel
  induction fuel with
  | zero => intro start h k hk; omega
  | succ fuel ih =>
    intro start h k hk
    unfold findFree at h
    split at h
    · rename_i hmem
      cases k with
      | zero => simpa using hmem
      | succ j =>
        have heq : start + (j + 1) = start + 1 + j := by omega
        rw [heq]
        exact ih (start + 1) h j (by omega)
    · cases h

theorem findFree_isSome {fs : List String} {stem ext : String} {fuel start : Nat}
    (h : fs.length < fuel) :
    (findFree fs stem ext fuel start).isSome = true := by
  cases hf : findFree fs stem ext fuel start with
  | some r => rfl
  | none =>
    exfalso
    have hall := findFree_none fuel start hf
    have hnd : ((List.range fuel).map (fun k => candName stem ext (start + k))).Nodup := by
      refine List.Nodup.map ?_ (List.nodup_range fuel)
      intro x y hxy
      have := candName_inj stem ext hxy
      omega
    have hsub : (List.range fuel).map (fun k => candName stem ext (start + k)) ⊆ fs := by
      intro x hx
      rw [List.mem_map] at hx
      obtain ⟨k, hk, rfl⟩ := hx
      exact hall k (List.mem_range.mp hk)
    have hle := (List.subperm_of_subset hnd hsub).length_le
    simp only [List.length_map, List.length_range] at hle
    omega

theorem findFree_sound {fs : List String} {stem ext : String} :
    ∀ fuel start r, findFree fs stem ext fuel start = some r →
      ∃ n, start ≤ n ∧ r = candName stem ext n ∧ candName stem ext n ∉ fs ∧
        ∀ m, start ≤ m → m < n → candName stem ext m ∈ fs := by
  intro fuel
  induction fuel with
  | zero => intro start r h; cases h
  | succ fuel ih =>
    intro start r h
    unfold findFree at h
    split at h
    · rename_i hmem
      obtain ⟨n, hn1, hn2, hn3, hn4⟩ := ih (start + 1) r h
      refine ⟨n, by omega, hn2, hn3, ?_⟩
      intro m hm1 hm2
      by_cases hms : m = start
      · subst hms; exact hmem
      · exact hn4 m (by omega) hm2
    · rename_i hmem
      injection h with h
      exact ⟨start, le_rfl, h.symm, hmem,
        fun m hm1 hm2 => absurd (lt_of_le_of_lt hm1 hm2) (lt_irrefl start)⟩

/-! ## `extract_excel_from_eml` (lines 32-67)

A MIME container is its list of parts.  `email.header.decode_header`
followed by `bytes.decode(charset)` is a library call outside this
repository, so it enters the model as an oracle
`decode : String -> Option String`; `none` stands for the exception it can
raise (`UnicodeDecodeError` / `LookupError`), which the source does NOT
catch.  Staged payloads are written to `output_dir / filename`, a write
that silently overwrites an existing file of the same name. -/

/-- One MIME part: `get_content_disposition()`, `get_filename()`, and the
decoded payload bytes. -/
structure Part where
  disposition : Option String
  filename : Option String
  payload : List Nat
deriving DecidableEq

/-- Python `str.startswith`, on the character list. -/
def strStartsWith (s pre : String) : Bool := pre.data.isPrefixOf s.data

/-- Python `str.endswith`, on the character list. -/
def strEndsWith (s suf : String) : Bool := suf.data.isSuffixOf s.data

/-- The encoded-word branch of the source: a filename of the form
`=?...?=` goes through the decode oracle, any other filename is used as
is. -/
def decodeName (decode : String → Option String) (f : String) : Option String :=
  if strStartsWith f "=?" && strEndsWith f "?=" then decode f else some f

/-- Writing payload `b` at path `p` into the staging directory:
overwrites the entry if present, appends it otherwise. -/
def stage (fs : List (String × List Nat)) (p : String) (b : List Nat) :
    List (String × List Nat) :=
  if fs.any (fun e => e.1 == p) then
    fs.map (fun e => if e.1 == p then (p, b) else e)
  else fs ++ [(p, b)]

/-- The `for part in msg.walk()` loop.  State: staged files and the list
of returned paths.  A decode failure is an uncaught exception: the whole
extraction aborts with `.error`. -/
def extractLoop (decode : String → Option String) :
    List Part → List (String × List Nat) → List String →
      Except Unit (List (String × List Nat) × List String)
  | [], fs, acc => .ok (fs, acc)
  | part :: rest, fs, acc =>
    match part.disposition, part.filename with
    | some d, some f =>
      if d = "attachment" ∧ f ≠ "" then
        match decodeName decode f with
        | none => .error ()
        | some name =>
          if strEndsWith name ".xlsx" || strEndsWith name ".xls" then
            extractLoop decode rest
              (stage fs ("temp_attachments/" ++ name) part.payload)
              (acc ++ ["temp_attachments/" ++ name])
          else extractLoop decode rest fs acc
      else extractLoop decode rest fs acc
    | _, _ => extractLoop decode rest fs acc

/-- `extract_excel_from_eml`: run the loop on the container's parts with
an empty staging directory; on success the result is the staged files and
the returned list of extracted paths. -/
def extract_excel_from_eml (decode : String → Option String) (parts : List Part) :
    Except Unit (List (String × List Nat) × List String) :=
  extractLoop decode parts [] []

/-- The per-part yield condition of the extractor: content-disposition is
explicitly `"attachment"`, the filename is present and non-empty, and the
(decoded) filename ends in `.xlsx` or `.xls`; the yielded value is the
staging path. -/
def yieldName (decode : String → Option String) (part : Part) : Option String :=
  match part.disposition, part.filename with
  | some d, some f =>
    if d = "attachment" ∧ f ≠ "" then
      match decodeName decode f with
      | none => none
      | some name =>
        if strEndsWith name ".xlsx" || strEndsWith name ".xls" then
          some ("temp_attachments/" ++ name)
        else none
    else none
  | _, _ => none

/-! ## The per-attachment CSV write of `process_eml_file` (lines 140-163)

On a normalization error nothing is written; on success the proposed name
is disambiguated with `get_unique_filename` and the file is written.  The
output directory is the list of file names present in it. -/

/-- `Path.stem` for the derived names, which always end in `.csv`. -/
def stemOf (p : String) : String := String.mk (p.data.take (p.data.length - 4))

/-- One attachment's effect on the output directory: the list of files
after processing the sheet. -/
def csvWrite (fsOut : List String) (sheet : Sheet) : List String :=
  match process_sales_excel sheet with
  | .error _ => fsOut
  | .ok (_, name) => fsOut ++ [get_unique_filename fsOut (stemOf name) ".csv"]

/-! ## Claim theorems: the normalizer -/

/-- **C2.** For every title text containing a substring matching
`(\d{2}/\d{2}/\d{4})\s*-\s*(\d{2}/\d{2}/\d{4})`, the regex search of
`process_sales_excel` succeeds and extracts a pair of dates that are the
literal date substrings present in the text at the matched position
(separated there by optional whitespace and a dash), regardless of any
surrounding characters. -/
theorem search_extracts_literal_dates
    (l pre d1 w1 w2 d2 post : List Char)
    (hl : l = pre ++ (d1 ++ (w1 ++ '-' :: (w2 ++ (d2 ++ post)))))
    (hs1 : dateShape d1 = true) (hs2 : dateShape d2 = true)
    (hw1 : w1.all isSpaceChar = true) (hw2 : w2.all isSpaceChar = true) :
    ∃ s e, searchRange l = some (s, e) ∧
      dateShape s = true ∧ dateShape e = true ∧
      ∃ pre2 v1 v2 post2, l = pre2 ++ (s ++ (v1 ++ '-' :: (v2 ++ (e ++ post2)))) ∧
        v1.all isSpaceChar = true ∧ v2.all isSpaceChar = true := by
  subst hl
  have hsome := @searchRange_complete pre d1 w1 w2 d2 post hs1 hs2 hw1 hw2
  cases hsr : searchRange (pre ++ (d1 ++ (w1 ++ '-' :: (w2 ++ (d2 ++ post))))) with
  | none => rw [hsr] at hsome; cases hsome
  | some p =>
    obtain ⟨s, e⟩ := p
    obtain ⟨pre2, v1, v2, post2, hl2, hds1, hds2, hv1, hv2⟩ := searchRange_sound hsr
    exact ⟨s, e, rfl, hds1, hds2, pre2, v1, v2, post2, hl2, hv1, hv2⟩

/-- Witness for C2 at the concrete title
`"Report 01/02/2024  -  03/04/2024 (final)"`. -/
theorem search_extracts_literal_dates_witness :
    (dateShape "01/02/2024".data = true ∧ dateShape "03/04/2024".data = true ∧
      ("  ".data).all isSpaceChar = true) ∧
    (∃ s e, searchRange "Report 01/02/2024  -  03/04/2024 (final)".data = some (s, e) ∧
      dateShape s = true ∧ dateShape e = true ∧
      ∃ pre2 v1 v2 post2,
        "Report 01/02/2024  -  03/04/2024 (final)".data =
          pre2 ++ (s ++ (v1 ++ '-' :: (v2 ++ (e ++ post2)))) ∧
        v1.all isSpaceChar = true ∧ v2.all isSpaceChar = true) :=
  ⟨⟨rfl, rfl, rfl⟩,
    search_extracts_literal_dates "Report 01/02/2024  -  03/04/2024 (final)".data
      "Report ".data "01/02/2024".data "  ".data "  ".data "03/04/2024".data
      " (final)".data rfl rfl rfl rfl rfl⟩

/-- **C1.** For every sheet accepted by `process_sales_excel` (title match
`(s, e)`), the normalized table has exactly the sheet's data-row count
(rows beyond the fixed 3-row header block, including zero), the original
column count plus two, first two columns named `Period_Start` and
`Period_End`, and every row starts with the two literal date strings from
the title. -/
theorem normalize_shape (sheet : Sheet) (df : DataFrame) (fname : String)
    (s e : List Char)
    (hok : process_sales_excel sheet = .ok (df, fname))
    (hsr : searchRange (titleStr sheet).data = some (s, e)) :
    df.rows.length = sheet.rows.length - 3 ∧
    df.columns.length = (sheet.rows.getD 2 []).length + 2 ∧
    df.columns = "Period_Start" :: "Period_End" :: sheet.rows.getD 2 [] ∧
    ∀ r ∈ df.rows, ∃ t, r = String.mk s :: String.mk e :: t := by
  unfold process_sales_excel at hok
  split at hok
  · cases hok
  · rename_i s' e' hsr'
    rw [hsr'] at hsr
    injection hsr with hsr
    injection hsr with hs he
    subst hs; subst he
    split at hok
    · cases hok
    · rename_i sd hps
      split at hok
      · cases hok
      · rename_i ed hpe
        split at hok
        · cases hok
        · injection hok with hok
          injection hok with hdf hfn
          subst hdf
          refine ⟨?_, ?_, rfl, ?_⟩
          · simp
          · simp
          · intro r hr
            simp only [List.mem_map] at hr
            obtain ⟨a, _, ha⟩ := hr
            exact ⟨a, ha.symm⟩

/-- Witness for C1 at a sheet with zero data rows below the 3-row header
block: the normalized table has zero rows and the derived columns. -/
theorem normalize_shape_witness :
    process_sales_excel ⟨[["Sales 02/01/2024 - 08/01/2024"], ["ACME Ltd"], ["Region", "Amount"]]⟩ =
      .ok (⟨["Period_Start", "Period_End", "Region", "Amount"], []⟩,
        "sales_20240102_20240108.csv") ∧
    ((⟨["Period_Start", "Period_End", "Region", "Amount"], []⟩ : DataFrame).rows.length =
      ([["Sales 02/01/2024 - 08/01/2024"], ["ACME Ltd"], ["Region", "Amount"]] :
        List (List String)).length - 3 ∧
     (⟨["Period_Start", "Period_End", "Region", "Amount"], []⟩ : DataFrame).columns.length =
      (([["Sales 02/01/2024 - 08/01/2024"], ["ACME Ltd"], ["Region", "Amount"]] :
        List (List String)).getD 2 []).length + 2 ∧
     (⟨["Period_Start", "Period_End", "Region", "Amount"], []⟩ : DataFrame).columns =
      "Period_Start" :: "Period_End" ::
        ([["Sales 02/01/2024 - 08/01/2024"], ["ACME Ltd"], ["Region", "Amount"]] :
          List (List String)).getD 2 [] ∧
     ∀ r ∈ (⟨["Period_Start", "Period_End", "Region", "Amount"], []⟩ : DataFrame).rows,
        ∃ t, r = String.mk "02/01/2024".data :: String.mk "08/01/2024".data :: t) :=
  ⟨rfl, normalize_shape
    ⟨[["Sales 02/01/2024 - 08/01/2024"], ["ACME Ltd"], ["Region", "Amount"]]⟩
    ⟨["Period_Start", "Period_End", "Region", "Amount"], []⟩
    "sales_20240102_20240108.csv" "02/01/2024".data "08/01/2024".data rfl rfl⟩

/-- **C3 (counterexample).** The error raised when no date range is found
does not carry the offending cell content: two sheets with different
title cells produce the very same error value (a `ValueError` with a
fixed message), so the error cannot carry the cell content for
diagnostics. -/
theorem noMatch_error_same_for_different_cells :
    titleStr ⟨[["Q1 Report"]]⟩ ≠ titleStr ⟨[["Annual Summary"]]⟩ ∧
    process_sales_excel ⟨[["Q1 Report"]]⟩ = process_sales_excel ⟨[["Annual Summary"]]⟩ ∧
    process_sales_excel ⟨[["Q1 Report"]]⟩ = .error (.valueError noDateMsg) :=
  ⟨by decide, rfl, rfl⟩

/-- **C3 (amended).** For every sheet whose stringified title cell has no
match of the date-range pattern, `process_sales_excel` fails with the
`ValueError` carrying the fixed diagnostic message (the cell content is
printed separately, not carried in the error), and no CSV file is written
for that attachment. -/
theorem noMatch_raises_fixed_valueError (sheet : Sheet) (fsOut : List String)
    (h : searchRange (titleStr sheet).data = none) :
    process_sales_excel sheet = .error (.valueError noDateMsg) ∧
    csvWrite fsOut sheet = fsOut := by
  have hp : process_sales_excel sheet = .error (.valueError noDateMsg) := by
    unfold process_sales_excel
    rw [h]
  refine ⟨hp, ?_⟩
  unfold csvWrite
  rw [hp]

/-- Witness for the amended C3 at the title cell `"Q1 Report"`. -/
theorem noMatch_raises_fixed_valueError_witness :
    searchRange (titleStr ⟨[["Q1 Report"]]⟩).data = none ∧
    (process_sales_excel ⟨[["Q1 Report"]]⟩ = .error (.valueError noDateMsg) ∧
      csvWrite ["existing.csv"] ⟨[["Q1 Report"]]⟩ = ["existing.csv"]) :=
  ⟨rfl, noMatch_raises_fixed_valueError ⟨[["Q1 Report"]]⟩ ["existing.csv"] rfl⟩

/-- **C4.** For every successfully normalized sheet, the proposed output
filename is `sales_<start>_<end>.csv` where start and end are the parsed
dates reformatted as `yyyymmdd` (year, zero-padded month, zero-padded
day). -/
theorem filename_is_yyyymmdd (sheet : Sheet) (df : DataFrame) (fname : String)
    (hok : process_sales_excel sheet = .ok (df, fname)) :
    ∃ s e d1 m1 y1 d2 m2 y2,
      searchRange (titleStr sheet).data = some (s, e) ∧
      parseDate (String.mk s) = some (d1, m1, y1) ∧
      parseDate (String.mk e) = some (d2, m2, y2) ∧
      fname = "sales_" ++ (pad4 y1 ++ pad2 m1 ++ pad2 d1) ++ "_" ++
        (pad4 y2 ++ pad2 m2 ++ pad2 d2) ++ ".csv" := by
  unfold process_sales_excel at hok
  split at hok
  · cases hok
  · rename_i s e hsr
    split at hok
    · cases hok
    · rename_i sd hps
      split at hok
      · cases hok
      · rename_i ed hpe
        split at hok
        · cases hok
        · injection hok with hok
          injection hok with hdf hfn
          obtain ⟨d1, m1, y1⟩ := sd
          obtain ⟨d2, m2, y2⟩ := ed
          exact ⟨s, e, d1, m1, y1, d2, m2, y2, hsr, hps, hpe, hfn.symm⟩

/-- Witness for C4: the title containing `"01/01/2024 - 07/01/2024"`
yields the filename `sales_20240101_20240107.csv`. -/
theorem filename_is_yyyymmdd_witness :
    process_sales_excel ⟨[["Sales Report 01/01/2024 - 07/01/2024"], ["ACME"], ["Item"]]⟩ =
      .ok (⟨["Period_Start", "Period_End", "Item"], []⟩, "sales_20240101_20240107.csv") ∧
    (∃ s e d1 m1 y1 d2 m2 y2,
      searchRange
        (titleStr ⟨[["Sales Report 01/01/2024 - 07/01/2024"], ["ACME"], ["Item"]]⟩).data =
        some (s, e) ∧
      parseDate (String.mk s) = some (d1, m1, y1) ∧
      parseDate (String.mk e) = some (d2, m2, y2) ∧
      "sales_20240101_20240107.csv" = "sales_" ++ (pad4 y1 ++ pad2 m1 ++ pad2 d1) ++ "_" ++
        (pad4 y2 ++ pad2 m2 ++ pad2 d2) ++ ".csv") :=
  ⟨rfl, filename_is_yyyymmdd
    ⟨[["Sales Report 01/01/2024 - 07/01/2024"], ["ACME"], ["Item"]]⟩
    ⟨["Period_Start", "Period_End", "Item"], []⟩ "sales_20240101_20240107.csv" rfl⟩

/-- **C8 (counterexample).** A title text containing two occurrences of
the date-range pattern is not rejected: `process_sales_excel` accepts the
record and uses the first occurrence. -/
theorem two_occurrences_accepted :
    countMatchPositions
      (titleStr ⟨[["01/01/2024 - 02/01/2024 and 03/01/2024 - 04/01/2024"], ["meta"],
        ["H"]]⟩).data = 2 ∧
    process_sales_excel ⟨[["01/01/2024 - 02/01/2024 and 03/01/2024 - 04/01/2024"], ["meta"],
        ["H"]]⟩ =
      .ok (⟨["Period_Start", "Period_End", "H"], []⟩, "sales_20240101_20240102.csv") :=
  ⟨rfl, rfl⟩

/-- **C8 (amended).** The record is accepted whenever the regex search
finds at least one occurrence (the leftmost match is used) and its two
captured dates parse; the number of further occurrences in the title is
never examined, so more than one occurrence does not cause rejection. -/
theorem first_match_accepted (sheet : Sheet) (s e : List Char) (sd ed : Nat × Nat × Nat)
    (hsr : searchRange (titleStr sheet).data = some (s, e))
    (hps : parseDate (String.mk s) = some sd)
    (hpe : parseDate (String.mk e) = some ed)
    (hlen : 3 ≤ sheet.rows.length) :
    process_sales_excel sheet =
      .ok ({ columns := "Period_Start" :: "Period_End" :: sheet.rows.getD 2 [],
             rows := (sheet.rows.drop 3).map (fun r => String.mk s :: String.mk e :: r) },
           mkFilename sd ed) := by
  unfold process_sales_excel
  simp only [hsr, hps, hpe]
  rw [if_neg (by omega)]

/-- Witness for the amended C8 at the two-occurrence title: the first
occurrence's dates are used. -/
theorem first_match_accepted_witness :
    searchRange
      (titleStr ⟨[["01/01/2024 - 02/01/2024 and 03/01/2024 - 04/01/2024"], ["meta"],
        ["H"]]⟩).data = some ("01/01/2024".data, "02/01/2024".data) ∧
    parseDate (String.mk "01/01/2024".data) = some (1, 1, 2024) ∧
    parseDate (String.mk "02/01/2024".data) = some (2, 1, 2024) ∧
    process_sales_excel ⟨[["01/01/2024 - 02/01/2024 and 03/01/2024 - 04/01/2024"], ["meta"],
        ["H"]]⟩ =
      .ok ({ columns := "Period_Start" :: "Period_End" ::
               ([["01/01/2024 - 02/01/2024 and 03/01/2024 - 04/01/2024"], ["meta"],
                 ["H"]] : List (List String)).getD 2 [],
             rows := (([["01/01/2024 - 02/01/2024 and 03/01/2024 - 04/01/2024"], ["meta"],
                 ["H"]] : List (List String)).drop 3).map
               (fun r => String.mk "01/01/2024".data :: String.mk "02/01/2024".data :: r) },
           mkFilename (1, 1, 2024) (2, 1, 2024)) :=
  ⟨rfl, rfl, rfl, first_match_accepted
    ⟨[["01/01/2024 - 02/01/2024 and 03/01/2024 - 04/01/2024"], ["meta"], ["H"]]⟩
    "01/01/2024".data "02/01/2024".data (1, 1, 2024) (2, 1, 2024) rfl rfl rfl
    (by norm_num)⟩

/-- **C9.** For every sheet whose matched date substrings are not valid
calendar dates (for example day 32), the `strptime` failure propagates as
a hard error naming the offending date string — no clamping, no success —
and no CSV is written. -/
theorem invalid_date_propagates (sheet : Sheet) (s e : List Char) (fsOut : List String)
    (hsr : searchRange (titleStr sheet).data = some (s, e))
    (hbad : parseDate (String.mk s) = none ∨ parseDate (String.mk e) = none) :
    (∃ d, process_sales_excel sheet = .error (.strptimeError d) ∧
      (d = String.mk s ∨ d = String.mk e)) ∧
    csvWrite fsOut sheet = fsOut := by
  have hp : ∃ d, process_sales_excel sheet = .error (.strptimeError d) ∧
      (d = String.mk s ∨ d = String.mk e) := by
    cases hps : parseDate (String.mk s) with
    | none =>
      refine ⟨String.mk s, ?_, Or.inl rfl⟩
      unfold process_sales_excel
      simp only [hsr, hps]
    | some sd =>
      have hpe : parseDate (String.mk e) = none := by
        rcases hbad with hb | hb
        · rw [hps] at hb; cases hb
        · exact hb
      refine ⟨String.mk e, ?_, Or.inr rfl⟩
      unfold process_sales_excel
      simp only [hsr, hps, hpe]
  obtain ⟨d, hpd, hor⟩ := hp
  refine ⟨⟨d, hpd, hor⟩, ?_⟩
  unfold csvWrite
  rw [hpd]

/-- Witness for C9 at the title `"32/01/2024 - 01/01/2024"`: day 32
matches the two-digit pattern but is not a valid calendar day. -/
theorem invalid_date_propagates_witness :
    searchRange (titleStr ⟨[["32/01/2024 - 01/01/2024"]]⟩).data =
      some ("32/01/2024".data, "01/01/2024".data) ∧
    parseDate (String.mk "32/01/2024".data) = none ∧
    ((∃ d, process_sales_excel ⟨[["32/01/2024 - 01/01/2024"]]⟩ = .error (.strptimeError d) ∧
      (d = String.mk "32/01/2024".data ∨ d = String.mk "01/01/2024".data)) ∧
     csvWrite [] ⟨[["32/01/2024 - 01/01/2024"]]⟩ = []) :=
  ⟨rfl, rfl, invalid_date_propagates ⟨[["32/01/2024 - 01/01/2024"]]⟩
    "32/01/2024".data "01/01/2024".data [] rfl (Or.inl rfl)⟩

/-! ## Claim theorems: the extractor -/

theorem extractLoop_acc (decode : String → Option String) :
    ∀ parts fs acc fs2 acc2,
      extractLoop decode parts fs acc = .ok (fs2, acc2) →
      acc2 = acc ++ parts.filterMap (yieldName decode) := by
  intro parts
  induction parts with
  | nil =>
    intro fs acc fs2 acc2 h
    injection h with h
    injection h with h1 h2
    simp [h2.symm]
  | cons part rest ih =>
    intro fs acc fs2 acc2 h
    obtain ⟨pd, pf, pb⟩ := part
    rcases pd with _ | d
    · simp only [extractLoop] at h
      have hy : yieldName decode ⟨none, pf, pb⟩ = none := by simp [yieldName]
      rw [List.filterMap_cons_none hy]
      exact ih _ _ _ _ h
    · rcases pf with _ | f
      · simp only [extractLoop] at h
        have hy : yieldName decode ⟨some d, none, pb⟩ = none := by simp [yieldName]
        rw [List.filterMap_cons_none hy]
        exact ih _ _ _ _ h
      · simp only [extractLoop] at h
        by_cases hc : d = "attachment" ∧ f ≠ ""
        · rw [if_pos hc] at h
          cases hdec : decodeName decode f with
          | none => simp only [hdec] at h; cases h
          | some name =>
            simp only [hdec] at h
            by_cases hext : (strEndsWith name ".xlsx" || strEndsWith name ".xls") = true
            · rw [if_pos hext] at h
              have hy : yieldName decode ⟨some d, some f, pb⟩ =
                  some ("temp_attachments/" ++ name) := by
                simp only [yieldName]
                rw [if_pos hc]
                simp only [hdec]
                rw [if_pos hext]
              rw [List.filterMap_cons_some hy]
              have h2 := ih _ _ _ _ h
              rw [h2, List.append_assoc]
              rfl
            · rw [if_neg hext] at h
              have hy : yieldName decode ⟨some d, some f, pb⟩ = none := by
                simp only [yieldName]
                rw [if_pos hc]
                simp only [hdec]
                rw [if_neg hext]
              rw [List.filterMap_cons_none hy]
              exact ih _ _ _ _ h
        · rw [if_neg hc] at h
          have hy : yieldName decode ⟨some d, some f, pb⟩ = none := by
            simp only [yieldName]
            rw [if_neg hc]
          rw [List.filterMap_cons_none hy]
          exact ih _ _ _ _ h

/-- **C6.** On every container whose extraction completes, a payload path
is yielded for a part iff that part's content-disposition is explicitly
`"attachment"`, its filename is present and non-empty, and the decoded
filename ends (case-sensitively) in `.xlsx` or `.xls` — the per-part
condition spelled out by `yieldName`; order and multiplicity are
preserved. -/
theorem extract_yields_iff (decode : String → Option String) (parts : List Part)
    (fs : List (String × List Nat)) (acc : List String)
    (hok : extract_excel_from_eml decode parts = .ok (fs, acc)) :
    acc = parts.filterMap (yieldName decode) := by
  have h := extractLoop_acc decode parts [] [] fs acc hok
  simpa using h

/-- Witness for C6: a container with one `.pdf` and one `.xlsx` attachment
yields exactly one payload path — the spreadsheet's. -/
theorem extract_yields_iff_witness :
    extract_excel_from_eml (fun _ => none)
      [⟨some "attachment", some "notes.pdf", [1, 2]⟩,
       ⟨some "attachment", some "report.xlsx", [3, 4]⟩] =
      .ok ([("temp_attachments/report.xlsx", [3, 4])], ["temp_attachments/report.xlsx"]) ∧
    ["temp_attachments/report.xlsx"] =
      ([⟨some "attachment", some "notes.pdf", [1, 2]⟩,
        ⟨some "attachment", some "report.xlsx", [3, 4]⟩] : List Part).filterMap
        (yieldName (fun _ => none)) ∧
    (["temp_attachments/report.xlsx"] : List String).length = 1 :=
  ⟨rfl,
   extract_yields_iff (fun _ => none)
     [⟨some "attachment", some "notes.pdf", [1, 2]⟩,
      ⟨some "attachment", some "report.xlsx", [3, 4]⟩]
     [("temp_attachments/report.xlsx", [3, 4])] ["temp_attachments/report.xlsx"] rfl,
   rfl⟩

theorem extractLoop_append (decode : String → Option String) :
    ∀ l1 l2 fs acc,
      extractLoop decode (l1 ++ l2) fs acc =
        match extractLoop decode l1 fs acc with
        | .ok (fs2, acc2) => extractLoop decode l2 fs2 acc2
        | .error e => .error e := by
  intro l1
  induction l1 with
  | nil => intro l2 fs acc; rfl
  | cons part rest ih =>
    intro l2 fs acc
    obtain ⟨pd, pf, pb⟩ := part
    rw [List.cons_append]
    rcases pd with _ | d
    · show extractLoop decode (rest ++ l2) fs acc = _
      rw [ih]
      rfl
    · rcases pf with _ | f
      · show extractLoop decode (rest ++ l2) fs acc = _
        rw [ih]
        rfl
      · simp only [extractLoop]
        by_cases hc : d = "attachment" ∧ f ≠ ""
        · rw [if_pos hc, if_pos hc]
          cases hdec : decodeName decode f with
          | none => simp only [hdec]
          | some name =>
            simp only [hdec]
            by_cases hext : (strEndsWith name ".xlsx" || strEndsWith name ".xls") = true
            · rw [if_pos hext, if_pos hext, ih]
            · rw [if_neg hext, if_neg hext, ih]
        · rw [if_neg hc, if_neg hc, ih]

/-- **C7 (counterexample).** A container holding an attachment whose
MIME-encoded filename fails to decode and a sibling `.xlsx` attachment:
the extraction aborts with the uncaught exception, so the sibling is NOT
processed or yielded, contrary to the claim. -/
theorem decode_failure_not_isolated :
    extract_excel_from_eml (fun _ => none)
      [⟨some "attachment", some "=?utf-8?B?broken?=", [9]⟩,
       ⟨some "attachment", some "good.xlsx", [7]⟩] = .error () ∧
    ¬ ∃ fs acc, extract_excel_from_eml (fun _ => none)
      [⟨some "attachment", some "=?utf-8?B?broken?=", [9]⟩,
       ⟨some "attachment", some "good.xlsx", [7]⟩] = .ok (fs, acc) ∧
      "temp_attachments/good.xlsx" ∈ acc := by
  refine ⟨rfl, ?_⟩
  rintro ⟨fs, acc, h, -⟩
  rw [show extract_excel_from_eml (fun _ => none)
      [⟨some "attachment", some "=?utf-8?B?broken?=", [9]⟩,
       ⟨some "attachment", some "good.xlsx", [7]⟩] = .error () from rfl] at h
  cases h

/-- **C7 (amended).** When one qualifying attachment's encoded filename
fails to decode, the exception is uncaught inside the extractor: the
extraction of that whole container aborts with an error (the batch
orchestrator catches it one level up), and sibling attachments after the
failing part are not processed or yielded. -/
theorem decode_failure_aborts_container (decode : String → Option String)
    (pre : List Part) (part : Part) (rest : List Part)
    (fs : List (String × List Nat)) (acc : List String) (f : String)
    (hpre : extractLoop decode pre [] [] = .ok (fs, acc))
    (hdisp : part.disposition = some "attachment")
    (hfile : part.filename = some f) (hne : f ≠ "")
    (hdec : decodeName decode f = none) :
    extract_excel_from_eml decode (pre ++ part :: rest) = .error () := by
  unfold extract_excel_from_eml
  rw [extractLoop_append, hpre]
  show extractLoop decode (part :: rest) fs acc = .error ()
  obtain ⟨pd, pf, pb⟩ := part
  simp only at hdisp hfile
  subst hdisp
  subst hfile
  simp only [extractLoop]
  rw [if_pos (And.intro trivial hne)]
  simp only [hdec]

/-- Witness for the amended C7: the attachment before the failing part is
staged, the failing part aborts the container. -/
theorem decode_failure_aborts_container_witness :
    extractLoop (fun _ => none) [⟨some "attachment", some "sib1.xlsx", [1]⟩] [] [] =
      .ok ([("temp_attachments/sib1.xlsx", [1])], ["temp_attachments/sib1.xlsx"]) ∧
    decodeName (fun _ => none) "=?utf-8?B?broken?=" = none ∧
    "=?utf-8?B?broken?=" ≠ "" ∧
    extract_excel_from_eml (fun _ => none)
      ([⟨some "attachment", some "sib1.xlsx", [1]⟩] ++
        ⟨some "attachment", some "=?utf-8?B?broken?=", [9]⟩ ::
          [⟨some "attachment", some "sib2.xlsx", [7]⟩]) = .error () :=
  ⟨rfl, rfl, by decide,
   decode_failure_aborts_container (fun _ => none)
     [⟨some "attachment", some "sib1.xlsx", [1]⟩]
     ⟨some "attachment", some "=?utf-8?B?broken?=", [9]⟩
     [⟨some "attachment", some "sib2.xlsx", [7]⟩]
     [("temp_attachments/sib1.xlsx", [1])] ["temp_attachments/sib1.xlsx"]
     "=?utf-8?B?broken?=" rfl rfl rfl (by decide) rfl⟩

/-! ### The staging directory after extraction

`fsLookup` reads the content staged at a path; `lastYield` is the payload
of the rightmost part of the container that the extractor yields at a
given staging path.  The invariant `extractLoop_fsLookup` below states
that each write lands at `output_dir / filename` and silently overwrites,
so the staged content at a path is the last yielded payload for it. -/

/-- Left-biased choice on staged contents (`some` wins). -/
def orElseO (a b : Option (List Nat)) : Option (List Nat) :=
  match a with
  | some x => some x
  | none => b

theorem orElseO_none (a : Option (List Nat)) : orElseO a none = a := by
  cases a <;> rfl

theorem orElseO_assoc (a b c : Option (List Nat)) :
    orElseO (orElseO a b) c = orElseO a (orElseO b c) := by
  cases a <;> rfl

theorem orElseO_some_absorb (a : Option (List Nat)) (y : List Nat) (c : Option (List Nat)) :
    orElseO (orElseO a (some y)) c = orElseO a (some y) := by
  cases a <;> rfl

/-- Content of the staging directory at path `q` (first entry wins; the
loop keeps at most one entry per path). -/
def fsLookup (fs : List (String × List Nat)) (q : String) : Option (List Nat) :=
  match fs with
  | [] => none
  | e :: rest => if e.1 = q then some e.2 else fsLookup rest q

/-- Payload of the rightmost part of the container that the extractor
yields at staging path `p`: later attachments overwrite earlier ones. -/
def lastYield (decode : String → Option String) : List Part → String → Option (List Nat)
  | [], _ => none
  | part :: rest, p =>
    orElseO (lastYield decode rest p)
      (if yieldName decode part = some p then some part.payload else none)

theorem lastYield_cons_match (decode : String → Option String) {part : Part} {p : String}
    (h : yieldName decode part = some p) (rest : List Part) :
    lastYield decode (part :: rest) p =
      orElseO (lastYield decode rest p) (some part.payload) := by
  simp only [lastYield]
  rw [h, if_pos rfl]

theorem lastYield_cons_nomatch (decode : String → Option String) {part : Part} {p : String}
    (h : yieldName decode part ≠ some p) (rest : List Part) :
    lastYield decode (part :: rest) p = lastYield decode rest p := by
  simp only [lastYield]
  rw [if_neg h, orElseO_none]

theorem lastYield_append (decode : String → Option String) (p : String) :
    ∀ l1 l2, lastYield decode (l1 ++ l2) p =
      orElseO (lastYield decode l2 p) (lastYield decode l1 p) := by
  intro l1
  induction l1 with
  | nil =>
    intro l2
    rw [List.nil_append]
    cases lastYield decode l2 p <;> rfl
  | cons a t ih =>
    intro l2
    rw [List.cons_append]
    simp only [lastYield]
    rw [ih, orElseO_assoc]

theorem fsLookup_append (q : String) :
    ∀ fs1 fs2, fsLookup (fs1 ++ fs2) q =
      match fsLookup fs1 q with
      | some b => some b
      | none => fsLookup fs2 q := by
  intro fs1
  induction fs1 with
  | nil => intro fs2; rfl
  | cons e rest ih =>
    intro fs2
    simp only [List.cons_append, fsLookup]
    by_cases heq : e.1 = q
    · rw [if_pos heq, if_pos heq]
    · rw [if_neg heq, if_neg heq]
      exact ih fs2

theorem fsLookup_any_false (p : String) :
    ∀ fs : List (String × List Nat), fs.any (fun e => e.1 == p) = false →
      fsLookup fs p = none := by
  intro fs
  induction fs with
  | nil => intro h; rfl
  | cons e rest ih =>
    intro h
    simp only [List.any_cons, Bool.or_eq_false_iff] at h
    simp only [fsLookup]
    rw [if_neg (fun hb => absurd (beq_iff_eq.mpr hb) (by rw [h.1]; exact Bool.false_ne_true))]
    exact ih h.2

theorem fsLookup_map_replace_ne (p q : String) (b : List Nat) (hne : q ≠ p) :
    ∀ fs : List (String × List Nat),
      fsLookup (fs.map (fun e => if e.1 == p then (p, b) else e)) q = fsLookup fs q := by
  intro fs
  induction fs with
  | nil => rfl
  | cons e rest ih =>
    have hpq : ¬ p = q := fun h => hne h.symm
    by_cases hep : e.1 = p
    · simp only [List.map_cons]
      rw [if_pos (beq_iff_eq.mpr hep)]
      simp only [fsLookup]
      rw [if_neg hpq, if_neg (fun h => hpq (hep ▸ h)), ih]
    · simp only [List.map_cons]
      rw [if_neg (fun hb => hep (beq_iff_eq.mp hb))]
      simp only [fsLookup]
      by_cases heq : e.1 = q
      · rw [if_pos heq, if_pos heq]
      · rw [if_neg heq, if_neg heq, ih]

theorem fsLookup_map_replace_eq (p : String) (b : List Nat) :
    ∀ fs : List (String × List Nat), fs.any (fun e => e.1 == p) = true →
      fsLookup (fs.map (fun e => if e.1 == p then (p, b) else e)) p = some b := by
  intro fs
  induction fs with
  | nil => intro h; cases h
  | cons e rest ih =>
    intro h
    by_cases hep : e.1 = p
    · simp only [List.map_cons]
      rw [if_pos (beq_iff_eq.mpr hep)]
      simp only [fsLookup]
      rw [if_pos trivial]
    · have h2 : rest.any (fun e => e.1 == p) = true := by
        simp only [List.any_cons, Bool.or_eq_true] at h
        rcases h with h | h
        · exact absurd (beq_iff_eq.mp h) hep
        · exact h
      simp only [List.map_cons]
      rw [if_neg (fun hb => hep (beq_iff_eq.mp hb))]
      simp only [fsLookup]
      rw [if_neg hep]
      exact ih h2

theorem fsLookup_stage (fs : List (String × List Nat)) (p q : String) (b : List Nat) :
    fsLookup (stage fs p b) q = if q = p then some b else fsLookup fs q := by
  unfold stage
  by_cases hany : fs.any (fun e => e.1 == p) = true
  · rw [if_pos hany]
    by_cases hqp : q = p
    · rw [if_pos hqp, hqp, fsLookup_map_replace_eq p b fs hany]
    · rw [if_neg hqp, fsLookup_map_replace_ne p q b hqp fs]
  · have hany2 : fs.any (fun e => e.1 == p) = false := by
      cases hx : fs.any (fun e => e.1 == p)
      · rfl
      · exact absurd hx hany
    rw [if_neg hany, fsLookup_append q fs [(p, b)]]
    by_cases hqp : q = p
    · rw [if_pos hqp, hqp, fsLookup_any_false p fs hany2]
      show fsLookup [(p, b)] p = some b
      simp [fsLookup]
    · rw [if_neg hqp]
      cases hl : fsLookup fs q with
      | none =>
        simp only [fsLookup]
        rw [if_neg (fun h => hqp h.symm)]
      | some c => rfl

/-- Staging invariant of the part loop: after a successful run, the
content staged at `p` is the payload of the rightmost processed part
yielded at `p`, and the initial content of the staging area otherwise. -/
theorem extractLoop_fsLookup (decode : String → Option String) (p : String) :
    ∀ parts fs0 acc0 fs acc,
      extractLoop decode parts fs0 acc0 = .ok (fs, acc) →
      fsLookup fs p = orElseO (lastYield decode parts p) (fsLookup fs0 p) := by
  intro parts
  induction parts with
  | nil =>
    intro fs0 acc0 fs acc h
    injection h with h
    injection h with h1 h2
    subst h1
    rfl
  | cons part rest ih =>
    intro fs0 acc0 fs acc h
    obtain ⟨pd, pf, pb⟩ := part
    rcases pd with _ | d
    · simp only [extractLoop] at h
      have hy : yieldName decode ⟨none, pf, pb⟩ = none := by simp [yieldName]
      rw [lastYield_cons_nomatch decode (by rw [hy]; exact fun hc => Option.noConfusion hc)]
      exact ih _ _ _ _ h
    · rcases pf with _ | f
      · simp only [extractLoop] at h
        have hy : yieldName decode ⟨some d, none, pb⟩ = none := by simp [yieldName]
        rw [lastYield_cons_nomatch decode (by rw [hy]; exact fun hc => Option.noConfusion hc)]
        exact ih _ _ _ _ h
      · simp only [extractLoop] at h
        by_cases hc : d = "attachment" ∧ f ≠ ""
        · rw [if_pos hc] at h
          cases hdec : decodeName decode f with
          | none => simp only [hdec] at h; cases h
          | some name =>
            simp only [hdec] at h
            by_cases hext : (strEndsWith name ".xlsx" || strEndsWith name ".xls") = true
            · rw [if_pos hext] at h
              have hy : yieldName decode ⟨some d, some f, pb⟩ =
                  some ("temp_attachments/" ++ name) := by
                simp only [yieldName]
                rw [if_pos hc]
                simp only [hdec]
                rw [if_pos hext]
              have hrec := ih _ _ _ _ h
              rw [fsLookup_stage] at hrec
              by_cases hpp : p = "temp_attachments/" ++ name
              · rw [lastYield_cons_match decode (by rw [hy, hpp])]
                rw [if_pos hpp] at hrec
                rw [orElseO_some_absorb]
                exact hrec
              · rw [lastYield_cons_nomatch decode
                  (fun hcx => hpp (Option.some.inj (hy ▸ hcx)).symm)]
                rw [if_neg hpp] at hrec
                exact hrec
            · rw [if_neg hext] at h
              have hy : yieldName decode ⟨some d, some f, pb⟩ = none := by
                simp only [yieldName]
                rw [if_pos hc]
                simp only [hdec]
                rw [if_neg hext]
              rw [lastYield_cons_nomatch decode
                (by rw [hy]; exact fun hcx => Option.noConfusion hcx)]
              exact ih _ _ _ _ h
        · rw [if_neg hc] at h
          have hy : yieldName decode ⟨some d, some f, pb⟩ = none := by
            simp only [yieldName]
            rw [if_neg hc]
          rw [lastYield_cons_nomatch decode
            (by rw [hy]; exact fun hcx => Option.noConfusion hcx)]
          exact ih _ _ _ _ h

/-- **C10.** For every container whose extraction completes and holds two
or more qualifying attachments yielded at the same staging path `p`
(equal decoded filenames) — written `l1 ++ part1 :: (l2 ++ part2 :: l3)`
with `part1`, `part2` two of them, any parts around them: the returned
sequence lists `p` once per such attachment (so it contains duplicate
paths), and the staging directory holds at `p` only the payload of the
last such attachment — `part2`'s payload unless a part after it also
yields `p` — so `part1`'s earlier payload at that path is overwritten and
lost. -/
theorem duplicate_names_overwrite (decode : String → Option String)
    (l1 l2 l3 : List Part) (part1 part2 : Part) (p : String)
    (fs : List (String × List Nat)) (acc : List String)
    (hok : extract_excel_from_eml decode (l1 ++ part1 :: (l2 ++ part2 :: l3)) = .ok (fs, acc))
    (hy1 : yieldName decode part1 = some p)
    (hy2 : yieldName decode part2 = some p) :
    acc = l1.filterMap (yieldName decode) ++
      p :: (l2.filterMap (yieldName decode) ++ p :: l3.filterMap (yieldName decode)) ∧
    ¬ acc.Nodup ∧
    fsLookup fs p = lastYield decode (l1 ++ part1 :: (l2 ++ part2 :: l3)) p ∧
    fsLookup fs p = orElseO (lastYield decode l3 p) (some part2.payload) := by
  have hacc := extractLoop_acc decode _ _ _ _ _ hok
  have h1 : acc = l1.filterMap (yieldName decode) ++
      p :: (l2.filterMap (yieldName decode) ++ p :: l3.filterMap (yieldName decode)) := by
    rw [hacc, List.nil_append, List.filterMap_append, List.filterMap_cons_some hy1,
      List.filterMap_append, List.filterMap_cons_some hy2]
  have hnodup : ¬ acc.Nodup := by
    rw [h1]
    intro hnd
    have hnd2 := hnd.of_append_right
    rw [List.nodup_cons] at hnd2
    exact hnd2.1 (List.mem_append_right _ (List.mem_cons_self _ _))
  have hlast : lastYield decode (l1 ++ part1 :: (l2 ++ part2 :: l3)) p =
      orElseO (lastYield decode l3 p) (some part2.payload) := by
    rw [lastYield_append, lastYield_cons_match decode hy1, lastYield_append,
      lastYield_cons_match decode hy2]
    obtain ⟨z, hz⟩ : ∃ z, orElseO (lastYield decode l3 p) (some part2.payload) = some z := by
      cases lastYield decode l3 p with
      | none => exact ⟨part2.payload, rfl⟩
      | some b => exact ⟨b, rfl⟩
    rw [hz]
    rfl
  have hfs := extractLoop_fsLookup decode p _ _ _ _ _ hok
  rw [show fsLookup [] p = none from rfl, orElseO_none] at hfs
  exact ⟨h1, hnodup, hfs, hfs.trans hlast⟩

/-- Witness for C10: a container with three equal-named `.xlsx`
attachments (payloads `[1]`, `[2]`, `[3]`) among other parts returns the
shared staging path three times, and the staging directory keeps only the
last payload `[3]` at that path. -/
theorem duplicate_names_overwrite_witness :
    extract_excel_from_eml (fun _ => none)
      ([⟨some "attachment", some "notes.pdf", [0]⟩] ++
        ⟨some "attachment", some "report.xlsx", [1]⟩ ::
          ([⟨some "attachment", some "other.xls", [5]⟩] ++
            ⟨some "attachment", some "report.xlsx", [2]⟩ ::
              [⟨some "attachment", some "report.xlsx", [3]⟩])) =
      .ok ([("temp_attachments/report.xlsx", [3]), ("temp_attachments/other.xls", [5])],
        ["temp_attachments/report.xlsx", "temp_attachments/other.xls",
         "temp_attachments/report.xlsx", "temp_attachments/report.xlsx"]) ∧
    yieldName (fun _ => none) ⟨some "attachment", some "report.xlsx", [1]⟩ =
      some "temp_attachments/report.xlsx" ∧
    yieldName (fun _ => none) ⟨some "attachment", some "report.xlsx", [2]⟩ =
      some "temp_attachments/report.xlsx" ∧
    (["temp_attachments/report.xlsx", "temp_attachments/other.xls",
       "temp_attachments/report.xlsx", "temp_attachments/report.xlsx"] : List String) =
      [⟨some "attachment", some "notes.pdf", [0]⟩].filterMap (yieldName (fun _ => none)) ++
        "temp_attachments/report.xlsx" ::
          ([⟨some "attachment", some "other.xls", [5]⟩].filterMap (yieldName (fun _ => none)) ++
            "temp_attachments/report.xlsx" ::
              [⟨some "attachment", some "report.xlsx", [3]⟩].filterMap
                (yieldName (fun _ => none))) ∧
    ¬ (["temp_attachments/report.xlsx", "temp_attachments/other.xls",
        "temp_attachments/report.xlsx", "temp_attachments/report.xlsx"] : List String).Nodup ∧
    fsLookup [("temp_attachments/report.xlsx", [3]), ("temp_attachments/other.xls", [5])]
      "temp_attachments/report.xlsx" =
      orElseO (lastYield (fun _ => none) [⟨some "attachment", some "report.xlsx", [3]⟩]
        "temp_attachments/report.xlsx") (some [2]) :=
  have hmain := duplicate_names_overwrite (fun _ => none)
    [⟨some "attachment", some "notes.pdf", [0]⟩]
    [⟨some "attachment", some "other.xls", [5]⟩]
    [⟨some "attachment", some "report.xlsx", [3]⟩]
    ⟨some "attachment", some "report.xlsx", [1]⟩
    ⟨some "attachment", some "report.xlsx", [2]⟩
    "temp_attachments/report.xlsx"
    [("temp_attachments/report.xlsx", [3]), ("temp_attachments/other.xls", [5])]
    ["temp_attachments/report.xlsx", "temp_attachments/other.xls",
     "temp_attachments/report.xlsx", "temp_attachments/report.xlsx"]
    rfl rfl rfl
  ⟨rfl, rfl, rfl, hmain.1, hmain.2.1, hmain.2.2.2⟩

/-! ## Claim theorems: filename disambiguation -/

/-- **C5.** For every target whose name is already taken, the unique-name
rule returns `stem_<n>ext` for the least `n ≥ 1` that is free — it scans
upward from 1, skipping every taken candidate — and the returned name is
not among the existing files, so no existing file is touched or
overwritten. -/
theorem get_unique_filename_scans (fs : List String) (stem ext : String)
    (hex : stem ++ ext ∈ fs) :
    get_unique_filename fs stem ext ∉ fs ∧
    ∃ n, 1 ≤ n ∧ get_unique_filename fs stem ext = candName stem ext n ∧
      candName stem ext n ∉ fs ∧
      ∀ m, 1 ≤ m → m < n → candName stem ext m ∈ fs := by
  have hsome := @findFree_isSome fs stem ext (fs.length + 1) 1 (by omega)
  cases hf : findFree fs stem ext (fs.length + 1) 1 with
  | none => rw [hf] at hsome; cases hsome
  | some r =>
    obtain ⟨n, hn1, hn2, hn3, hn4⟩ := findFree_sound (fs.length + 1) 1 r hf
    have hval : get_unique_filename fs stem ext = r := by
      unfold get_unique_filename
      rw [if_pos hex, hf]
      rfl
    rw [hval, hn2]
    exact ⟨hn3, n, hn1, rfl, hn3, hn4⟩

/-- Witness for C5: with `sales_20240101_20240107.csv` present the next
name is `sales_20240101_20240107_1.csv`, and with that present too the
one after is `sales_20240101_20240107_2.csv`; neither is an existing
file. -/
theorem get_unique_filename_scans_witness :
    "sales_20240101_20240107" ++ ".csv" ∈ ["sales_20240101_20240107.csv"] ∧
    (get_unique_filename ["sales_20240101_20240107.csv"] "sales_20240101_20240107" ".csv" ∉
        ["sales_20240101_20240107.csv"] ∧
      ∃ n, 1 ≤ n ∧
        get_unique_filename ["sales_20240101_20240107.csv"] "sales_20240101_20240107" ".csv" =
          candName "sales_20240101_20240107" ".csv" n ∧
        candName "sales_20240101_20240107" ".csv" n ∉ ["sales_20240101_20240107.csv"] ∧
        ∀ m, 1 ≤ m → m < n →
          candName "sales_20240101_20240107" ".csv" m ∈ ["sales_20240101_20240107.csv"]) ∧
    get_unique_filename ["sales_20240101_20240107.csv"] "sales_20240101_20240107" ".csv" =
      "sales_20240101_20240107_1.csv" ∧
    get_unique_filename ["sales_20240101_20240107.csv", "sales_20240101_20240107_1.csv"]
      "sales_20240101_20240107" ".csv" = "sales_20240101_20240107_2.csv" :=
  ⟨by decide,
   get_unique_filename_scans ["sales_20240101_20240107.csv"] "sales_20240101_20240107" ".csv"
     (by decide),
   rfl, rfl⟩
